import Mathlib

/-!
Verification of the ImmoSearch DVF analysis pipeline.

The repository contains three near-duplicate implementations of the same
pipeline: `src/dvf_analyzer.py` (CLI), `src/mcp_servers/dvf_server.py` and
`src/mcp_servers/immosearch_server.py` (protocol adapters).  This file gives
a shallow embedding of the pipeline stages:

* raw transactions are modelled with fields as Python-like values
  (`PyVal`: absent / numeric / string), since the extraction code inspects
  `None` and applies `>` to whatever the field holds;
* Python `float` arithmetic is idealised as exact rational arithmetic (ℚ),
  with `round(x, 2)` modelled as round-half-to-even at two decimals;
* Python `sorted` (Timsort, stable) is modelled by `List.insertionSort`,
  which is stable and hence produces the identical list;
* fallible code (a Python `TypeError` raised by `value > 0` on a
  non-numeric field) is modelled with `Except String`.
-/

/-- Round-half-to-even of a rational to an integer (the semantics of Python
`round` on an exact value). -/
def roundHalfEvenZ (q : ℚ) : ℤ :=
  let f := ⌊q⌋
  let r := q - f
  if r < 1/2 then f
  else if 1/2 < r then f + 1
  else if f % 2 = 0 then f else f + 1

/-- Python `round(q, 2)`: round-half-to-even at two decimal places. -/
def round2 (q : ℚ) : ℚ := (roundHalfEvenZ (q * 100) : ℚ) / 100

/-- A Python value as found in a raw transaction field: `None`, a number, or
a (non-numeric) string. -/
inductive PyVal where
  | none
  | num (q : ℚ)
  | str (s : String)
deriving DecidableEq, Repr

/-- A raw DVF transaction as consumed by the analyzers (`transaction.get(...)`
results; `voie`, `commune`, `nature_mutation` default to `""`). -/
structure Transaction where
  valeur_fonciere : PyVal
  surface_relle_bati : PyVal
  nombre_pieces_principales : Option ℤ
  date_mutation : Option String
  voie : String
  commune : String
  nature_mutation : String
deriving DecidableEq, Repr

/-- The record shape produced by `extract_relevant_data`.  The rental
estimates (present only in rental mode) are modelled as a list of
`(rate, monthly_rent, rent_per_area)` triples, one per yield rate. -/
structure ExtractedRecord where
  valeur_fonciere : ℚ
  surface_relle_bati : ℚ
  nombre_pieces_principales : Option ℤ
  prix_m2 : ℚ
  date_mutation : Option String
  voie : String
  commune : String
  nature_mutation : String
  rental : List (ℚ × ℚ × ℚ)
deriving DecidableEq, Repr

/-- The identity key `(date, value, area, street)` of an extracted record. -/
def recKey (r : ExtractedRecord) : Option String × ℚ × ℚ × String :=
  (r.date_mutation, r.valeur_fonciere, r.surface_relle_bati, r.voie)

/-- Python `x > 0` on a transaction field: a boolean for numbers, a
`TypeError` for `None` or a string. -/
def pyGtZero : PyVal → Except String Bool
  | .num q => .ok (decide (0 < q))
  | .none => .error "TypeError"
  | .str _ => .error "TypeError"

/-- The numeric payload of a field known to be numeric. -/
def getNum : PyVal → ℚ
  | .num q => q
  | _ => 0

/-- The guard `valeur_fonciere is not None and surface_relle_bati is not None
and surface_relle_bati > 0 and valeur_fonciere > 0`, with Python
short-circuit evaluation order. -/
def essentialCheck (v s : PyVal) : Except String Bool :=
  if v = PyVal.none then .ok false
  else if s = PyVal.none then .ok false
  else do
    let b1 ← pyGtZero s
    if b1 then pyGtZero v else pure false

/-- Source: `dvf_server.py` / `dvf_analyzer.py` `extract_relevant_data`
(no deduplication; yield rates 5 and 6 in rental mode). -/
def extract_relevant_data : List Transaction → String → Except String (List ExtractedRecord)
  | [], _ => .ok []
  | t :: rest, ty => do
    let ok ← essentialCheck t.valeur_fonciere t.surface_relle_bati
    let tail ← extract_relevant_data rest ty
    if ok then
      let v := getNum t.valeur_fonciere
      let s := getNum t.surface_relle_bati
      .ok ({ valeur_fonciere := v, surface_relle_bati := s,
             nombre_pieces_principales := t.nombre_pieces_principales,
             prix_m2 := round2 (v / s),
             date_mutation := t.date_mutation, voie := t.voie,
             commune := t.commune, nature_mutation := t.nature_mutation,
             rental := if ty = "rental" then
               [(5, round2 (v * 5 / 1200), round2 (round2 (v * 5 / 1200) / s)),
                (6, round2 (v * 6 / 1200), round2 (round2 (v * 6 / 1200) / s))]
             else [] } :: tail)
    else .ok tail

/-- The record built by `immosearch_server.py` for one valid transaction
(yield rates 5, 6 and 7 in rental mode; the source computes the 7% figures
twice, which is idempotent). -/
def immoMkRecord (t : Transaction) (ty : String) : ExtractedRecord :=
  let v := getNum t.valeur_fonciere
  let s := getNum t.surface_relle_bati
  { valeur_fonciere := v, surface_relle_bati := s,
    nombre_pieces_principales := t.nombre_pieces_principales,
    prix_m2 := round2 (v / s),
    date_mutation := t.date_mutation, voie := t.voie,
    commune := t.commune, nature_mutation := t.nature_mutation,
    rental := if ty = "rental" then
      [(5, round2 (v * 5 / 1200), round2 (round2 (v * 5 / 1200) / s)),
       (6, round2 (v * 6 / 1200), round2 (round2 (v * 6 / 1200) / s)),
       (7, round2 (v * 7 / 1200), round2 (round2 (v * 7 / 1200) / s))]
    else [] }

/-- The identity key formed by `immosearch_server.py` for a valid
transaction: `(date_mutation, valeur_fonciere, surface_relle_bati, voie)`. -/
def txKey (t : Transaction) : Option String × ℚ × ℚ × String :=
  (t.date_mutation, getNum t.valeur_fonciere, getNum t.surface_relle_bati, t.voie)

/-- Source: `immosearch_server.py` `extract_relevant_data`, with the seen-set
threaded explicitly. -/
def immoExtractAux : List Transaction → List (Option String × ℚ × ℚ × String) → String →
    Except String (List ExtractedRecord)
  | [], _, _ => .ok []
  | t :: rest, seen, ty => do
    let ok ← essentialCheck t.valeur_fonciere t.surface_relle_bati
    if ok then
      if seen.contains (txKey t) then immoExtractAux rest seen ty
      else do
        let tail ← immoExtractAux rest (txKey t :: seen) ty
        .ok (immoMkRecord t ty :: tail)
    else immoExtractAux rest seen ty

/-- Source: `immosearch_server.py` `extract_relevant_data` (validates,
deduplicates by `(date, value, area, street)`, projects). -/
def immo_extract_relevant_data (txs : List Transaction) (ty : String) :
    Except String (List ExtractedRecord) :=
  immoExtractAux txs [] ty

/-- The ascending sort of a rational list (Python `sorted`; `insertionSort`
is stable, as is Timsort, so the lists agree). -/
def sortAsc (l : List ℚ) : List ℚ := l.insertionSort (· ≤ ·)

/-- Source: CPython `statistics.quantiles(data, n=4)` (default exclusive
method), i-th cut point, 1-indexed: `j, delta = divmod(i * (ld+1), 4)`,
`j` clamped to `[1, ld-1]`, then
`(data[j-1] * (4 - delta) + data[j] * delta) / 4` over the sorted data. -/
def pyQuantile4 (data : List ℚ) (i : ℕ) : ℚ :=
  let s := sortAsc data
  let ld := s.length
  let m := ld + 1
  let j0 := i * m / 4
  let delta := i * m % 4
  let j := if j0 < 1 then 1 else if ld - 1 < j0 then ld - 1 else j0
  (s.getD (j - 1) 0 * ((4 : ℚ) - (delta : ℕ)) + s.getD j 0 * (delta : ℕ)) / 4

/-- Source: `dvf_server.py` / `dvf_analyzer.py` `remove_outliers_iqr`
(quartile-fence policy). -/
def remove_outliers_iqr (data : List ExtractedRecord) : List ExtractedRecord :=
  if data.length < 4 then data
  else
    let prixList := data.map ExtractedRecord.prix_m2
    let q1 := pyQuantile4 prixList 1
    let q3 := pyQuantile4 prixList 3
    let iqr := q3 - q1
    let lower := max (q1 - 3/2 * iqr) 0
    let upper := q3 + 3/2 * iqr
    data.filter (fun r => decide (lower ≤ r.prix_m2 ∧ r.prix_m2 ≤ upper))

/-- Source: `immosearch_server.py` `remove_outliers_iqr` (trim-percentile
policy).  `int(n * 0.15)` and `int(n * 0.85)` are written as `3 * n / 20`
and `17 * n / 20`: the Python expressions use binary floats, but the stored
doubles for 0.15 and 0.85 err by less than half an ulp of any product
`n * c` for every list length that fits in memory, so truncation agrees
with the exact floor. -/
def immo_remove_outliers_iqr (data : List ExtractedRecord) : List ExtractedRecord :=
  if data.length < 4 then data
  else
    let sorted_prices := sortAsc (data.map ExtractedRecord.prix_m2)
    let n := sorted_prices.length
    let lower_index := 3 * n / 20
    let upper_index := 17 * n / 20
    let lower_bound := if lower_index < n then sorted_prices.getD lower_index 0
                       else sorted_prices.getD 0 0
    let upper_bound := if upper_index < n then sorted_prices.getD upper_index 0
                       else sorted_prices.getD (n - 1) 0
    data.filter (fun r => decide (lower_bound ≤ r.prix_m2 ∧ r.prix_m2 ≤ upper_bound))

/-- Quartile as the specification words it: linear interpolation at rank
`i·(n+1)/4` over the sorted sample, 1-indexed (no clamping). -/
def quartileByRank (data : List ℚ) (i : ℕ) : ℚ :=
  let s := sortAsc data
  let num := i * (s.length + 1)
  let j := num / 4
  let f : ℚ := ((num % 4 : ℕ) : ℚ) / 4
  s.getD (j - 1) 0 + f * (s.getD j 0 - s.getD (j - 1) 0)

/-- The lower quartile fence as the specification words it:
`max(Q1 - 1.5*IQR, 0)`. -/
def specLowerFence (prices : List ℚ) : ℚ :=
  max (quartileByRank prices 1 - 3/2 * (quartileByRank prices 3 - quartileByRank prices 1)) 0

/-- The upper quartile fence as the specification words it: `Q3 + 1.5*IQR`. -/
def specUpperFence (prices : List ℚ) : ℚ :=
  quartileByRank prices 3 + 3/2 * (quartileByRank prices 3 - quartileByRank prices 1)

/-- The rental figures the specification prescribes for a configurable list
of yield rates: for each rate `r`, `monthly_rent = round(value*r/1200, 2)`
and `rent_per_area = round(monthly_rent/area, 2)`. -/
def rentalEntries (rates : List ℚ) (v s : ℚ) : List (ℚ × ℚ × ℚ) :=
  rates.map (fun r => (r, round2 (v * r / 1200), round2 (round2 (v * r / 1200) / s)))

/-- The record the specification prescribes for one valid transaction, with
one rental entry per configured rate in rental mode. -/
def specMkRecord (rates : List ℚ) (t : Transaction) (ty : String) : ExtractedRecord :=
  let v := getNum t.valeur_fonciere
  let s := getNum t.surface_relle_bati
  { valeur_fonciere := v, surface_relle_bati := s,
    nombre_pieces_principales := t.nombre_pieces_principales,
    prix_m2 := round2 (v / s),
    date_mutation := t.date_mutation, voie := t.voie,
    commune := t.commune, nature_mutation := t.nature_mutation,
    rental := if ty = "rental" then rentalEntries rates v s else [] }

/-- The Extractor as the specification words it, parameterised by the
configured yield-rate set and with no deduplication: validate each record
(value and area present and positive, skipping failures) and project it. -/
def specExtractAll (rates : List ℚ) : List Transaction → String →
    Except String (List ExtractedRecord)
  | [], _ => .ok []
  | t :: rest, ty => do
    let ok ← essentialCheck t.valeur_fonciere t.surface_relle_bati
    if ok then
      let tail ← specExtractAll rates rest ty
      .ok (specMkRecord rates t ty :: tail)
    else specExtractAll rates rest ty

/-- Deduplication as the specification words it: maintain a seen-set of
identity keys and skip any record whose key was already seen, so the
first-seen record is retained in input order. -/
def dedupFirstAux (seen : List (Option String × ℚ × ℚ × String)) :
    List ExtractedRecord → List ExtractedRecord
  | [] => []
  | r :: rest =>
    if seen.contains (recKey r) then dedupFirstAux seen rest
    else r :: dedupFirstAux (recKey r :: seen) rest

/-- Deduplication by identity key, first occurrence wins. -/
def specDedupFirst (l : List ExtractedRecord) : List ExtractedRecord :=
  dedupFirstAux [] l

/-- Python truthiness of the `date_mutation` field (`None` and `""` are
falsy). -/
def dateTruthy (t : Transaction) : Bool :=
  match t.date_mutation with
  | Option.none => false
  | Option.some s => s ≠ ""

/-- The sort key `x['date_mutation']`, only applied to date-truthy
records. -/
def dateKey (t : Transaction) : String := t.date_mutation.getD ""

/-- Date-descending comparison used to model
`sorted(key=date_mutation, reverse=True)`: `a` may precede `b` when
`dateKey b ≤ dateKey a`.  Insertion sort with this relation is stable, as is
Python Timsort with `reverse=True`, so both produce the identical list. -/
def dateDesc (a b : Transaction) : Prop := dateKey b ≤ dateKey a

instance : DecidableRel dateDesc := fun a b => by unfold dateDesc; infer_instance

instance : IsTotal Transaction dateDesc :=
  ⟨fun a b => (le_total (dateKey b) (dateKey a)).imp id id⟩

instance : IsTrans Transaction dateDesc :=
  ⟨fun _ _ _ h1 h2 => le_trans h2 h1⟩

/-- Python slicing `l[:m]` for an arbitrary integer `m`: a prefix for
`m ≥ 0`, and all but the last `-m` elements for negative `m`. -/
def pySlice {α : Type} (l : List α) (m : ℤ) : List α :=
  if 0 ≤ m then l.take m.toNat else l.take (l.length - (-m).toNat)

/-- The optional exact room-count filter (`filtered_data` in the source). -/
def roomFiltered (data : List Transaction) (nb_pieces : Option ℤ) : List Transaction :=
  match nb_pieces with
  | Option.none => data
  | Option.some n => data.filter (fun t => t.nombre_pieces_principales = some n)

/-- The room-filtered, date-truthy, date-descending-sorted pool from which
`filter_recent_transactions` takes its prefix. -/
def selectorPool (data : List Transaction) (nb_pieces : Option ℤ) : List Transaction :=
  ((roomFiltered data nb_pieces).filter dateTruthy).insertionSort dateDesc

/-- Source: `filter_recent_transactions` (identical in all three copies):
optional exact room filter, drop falsy dates, stable sort by date
descending, then Python slice `[:max_results]`. -/
def filter_recent_transactions (data : List Transaction) (max_results : ℤ)
    (nb_pieces : Option ℤ) : List Transaction :=
  if data = [] then []
  else pySlice (selectorPool data nb_pieces) max_results

/-- Python `min` over a nonempty list. -/
def pymin (l : List ℚ) : ℚ :=
  match l with
  | [] => 0
  | h :: t => t.foldl min h

/-- Python `max` over a nonempty list. -/
def pymax (l : List ℚ) : ℚ :=
  match l with
  | [] => 0
  | h :: t => t.foldl max h

/-- Python `statistics.mean`: the arithmetic mean. -/
def pymean (l : List ℚ) : ℚ := l.sum / l.length

/-- Python `statistics.median`: middle of the sorted list, or the average of
the two middle values for even lengths. -/
def pymedian (l : List ℚ) : ℚ :=
  let s := sortAsc l
  let n := s.length
  if n % 2 = 1 then s.getD (n / 2) 0
  else (s.getD (n / 2 - 1) 0 + s.getD (n / 2) 0) / 2

/-- The sample variance (divisor `n - 1`), the square of
`statistics.stdev`. -/
def sampleVariance (l : List ℚ) : ℚ :=
  (l.map (fun x => (x - pymean l) ^ 2)).sum / ((l.length : ℚ) - 1)

/-- Round-half-to-even of `100·√q` divided by 100, i.e. `round(sqrt(q), 2)`,
computed exactly on rationals (`q ≥ 0`).  `t` is `⌊100·√q⌋`; the comparison
of `100·√q` with `t + 1/2` is done on squares. -/
def sqrtRound2 (q : ℚ) : ℚ :=
  let a := q.num.toNat
  let b := q.den
  let t := Nat.sqrt (10000 * a / b)
  if (10000 : ℚ) * q < ((2 * t + 1 : ℕ) : ℚ) ^ 2 / 4 then (t : ℚ) / 100
  else if ((2 * t + 1 : ℕ) : ℚ) ^ 2 / 4 < 10000 * q then ((t : ℚ) + 1) / 100
  else if t % 2 = 0 then (t : ℚ) / 100 else ((t : ℚ) + 1) / 100

/-- The sale-statistics mapping built by `calculate_statistics`. -/
structure SaleStats where
  nb_transactions : ℕ
  prix_m2_moyen : ℚ
  prix_m2_median : ℚ
  prix_m2_min : ℚ
  prix_m2_max : ℚ
  prix_m2_ecart_type : Option ℚ
deriving DecidableEq, Repr

/-- The numeric core of `calculate_statistics` (sale mode) over the list of
`prix_m2` values; `Option.none` models the empty dict returned for empty
input. -/
def aggregateQ (l : List ℚ) : Option SaleStats :=
  if l = [] then Option.none
  else Option.some
    { nb_transactions := l.length,
      prix_m2_moyen := round2 (pymean l),
      prix_m2_median := round2 (pymedian l),
      prix_m2_min := pymin l,
      prix_m2_max := pymax l,
      prix_m2_ecart_type :=
        if 1 < l.length then Option.some (sqrtRound2 (sampleVariance l)) else Option.none }

/-- Source: `calculate_statistics(data, "sale")` (identical across the
copies): statistics over the `prix_m2` field. -/
def calculate_statistics (data : List ExtractedRecord) : Option SaleStats :=
  aggregateQ (data.map ExtractedRecord.prix_m2)

/-- Append a value to its group in an insertion-ordered association list
(the model of a Python dict of lists with `append`). -/
def addToGroup (k : String) (v : ℚ) : List (String × List ℚ) → List (String × List ℚ)
  | [] => [(k, [v])]
  | (k2, vs) :: rest =>
    if k2 = k then (k2, vs ++ [v]) :: rest else (k2, vs) :: addToGroup k v rest

/-- The year component of a date string: `date.split('-')[0]`. -/
def yearOf (d : String) : String := (d.splitOn "-").headD ""

/-- The grouping key of `analyze_by_rooms`: the room count, or the sentinel
for missing room counts. -/
def roomKeyOf : Option ℤ → String
  | Option.some n => toString n
  | Option.none => "Non renseigné"

/-- Python truthiness of a record's `date_mutation`. -/
def recDateTruthy (r : ExtractedRecord) : Bool :=
  match r.date_mutation with
  | Option.none => false
  | Option.some s => s ≠ ""

/-- One iteration of the grouping loop of `dvf_analyzer.py`
`analyze_by_year`: records with a falsy date are skipped, the rest are
grouped by leading year of the date string. -/
def yearStep (acc : List (String × List ℚ)) (item : ExtractedRecord) :
    List (String × List ℚ) :=
  match item.date_mutation with
  | Option.none => acc
  | Option.some d => if d = "" then acc else addToGroup (yearOf d) item.prix_m2 acc

/-- Source: the grouping loop of `dvf_analyzer.py` `analyze_by_year`. -/
def yearGroups (data : List ExtractedRecord) : List (String × List ℚ) :=
  data.foldl yearStep []

/-- One iteration of the grouping loop of `dvf_analyzer.py`
`analyze_by_rooms`: every record is grouped, by room count or by the
sentinel. -/
def roomStep (acc : List (String × List ℚ)) (item : ExtractedRecord) :
    List (String × List ℚ) :=
  addToGroup (roomKeyOf item.nombre_pieces_principales) item.prix_m2 acc

/-- Source: the grouping loop of `dvf_analyzer.py` `analyze_by_rooms`. -/
def roomGroups (data : List ExtractedRecord) : List (String × List ℚ) :=
  data.foldl roomStep []

/-- The per-group statistics dict built by `analyze_by_year` /
`analyze_by_rooms`. -/
structure GroupStats where
  nb_transactions : ℕ
  prix_m2_moyen : ℚ
  prix_m2_median : ℚ
  prix_m2_min : ℚ
  prix_m2_max : ℚ
deriving DecidableEq, Repr

/-- The statistics pass over the groups (`if prix_list:` keeps only
nonempty groups; groups are never empty by construction). -/
def groupStats (groups : List (String × List ℚ)) : List (String × GroupStats) :=
  groups.filterMap (fun kv =>
    if kv.2 = [] then Option.none
    else Option.some (kv.1,
      { nb_transactions := kv.2.length,
        prix_m2_moyen := round2 (pymean kv.2),
        prix_m2_median := round2 (pymedian kv.2),
        prix_m2_min := pymin kv.2,
        prix_m2_max := pymax kv.2 }))

/-- Source: `dvf_analyzer.py` `analyze_by_year`. -/
def analyze_by_year (data : List ExtractedRecord) : List (String × GroupStats) :=
  groupStats (yearGroups data)

/-- Source: `dvf_analyzer.py` `analyze_by_rooms`. -/
def analyze_by_rooms (data : List ExtractedRecord) : List (String × GroupStats) :=
  groupStats (roomGroups data)

/-- The sum of the per-group `nb_transactions` values of a segmentation
result. -/
def totalCount (l : List (String × GroupStats)) : ℕ :=
  (l.map (fun kv => kv.2.nb_transactions)).sum

/-- The summary block of a successful analysis (presentation-only fields
such as the echoed postal code are omitted). -/
structure AnalysisSummary where
  transactions_with_data : ℕ
  transactions_analyzed : ℕ
  outliers_removed : ℕ
  most_recent : Option String
  oldest_in_selection : Option String
deriving DecidableEq, Repr

/-- The terminal result of `analyze_dvf_data` after the fetch stage: either
a success payload or an error dict with a reason string.  The rental-mode
statistics payload is not modelled (the staging logic is identical). -/
inductive AnalysisResult where
  | success (summary : AnalysisSummary) (statistics : Option SaleStats)
  | error (reason : String)
deriving DecidableEq, Repr

/-- The `status` field of the result dict. -/
def statusOf : AnalysisResult → String
  | .success _ _ => "success"
  | .error _ => "error"

/-- Source: `immosearch_server.py` `analyze_dvf_data` from the
selection stage on (the fetch stage is an external collaborator).  The
surrounding `try/except` turns any raised `TypeError` into an error dict,
so no exception crosses the boundary. -/
def analyze_dvf_core (resultats : List Transaction) (max_results : ℤ)
    (nb_pieces : Option ℤ) (analysis_type : String) : AnalysisResult :=
  let recent := filter_recent_transactions resultats max_results nb_pieces
  if recent = [] then .error "No recent transactions found with specified criteria"
  else
    match immo_extract_relevant_data recent analysis_type with
    | .error e => .error ("Analysis failed: " ++ e)
    | .ok extracted =>
      if extracted = [] then .error "No transactions with complete data found"
      else
        let cleaned := immo_remove_outliers_iqr extracted
        if cleaned = [] then .error "No transactions after outlier removal"
        else .success
          { transactions_with_data := extracted.length,
            transactions_analyzed := cleaned.length,
            outliers_removed := extracted.length - cleaned.length,
            most_recent := recent.head?.bind Transaction.date_mutation,
            oldest_in_selection := recent.getLast?.bind Transaction.date_mutation }
          (calculate_statistics cleaned)
/-- Claim C10: both outlier-removal policies return a subsequence of their
input: every output record is one of the input records unchanged, relative
order is preserved, and the output is never longer than the input. -/
theorem C10_outlier_filters_sublist (data : List ExtractedRecord) :
    (remove_outliers_iqr data).Sublist data ∧
    (immo_remove_outliers_iqr data).Sublist data ∧
    (remove_outliers_iqr data).length ≤ data.length ∧
    (immo_remove_outliers_iqr data).length ≤ data.length := by
  have h1 : (remove_outliers_iqr data).Sublist data := by
    unfold remove_outliers_iqr
    split
    · exact List.Sublist.refl _
    · exact List.filter_sublist _
  have h2 : (immo_remove_outliers_iqr data).Sublist data := by
    unfold immo_remove_outliers_iqr
    split
    · exact List.Sublist.refl _
    · exact List.filter_sublist _
  exact ⟨h1, h2, h1.length_le, h2.length_le⟩
theorem pyQuantile4_eq_rank (data : List ℚ) (i : ℕ)
    (h1 : 1 ≤ i * (data.length + 1) / 4)
    (h2 : i * (data.length + 1) / 4 < data.length) :
    pyQuantile4 data i = quartileByRank data i := by
  have hlen : (sortAsc data).length = data.length := by
    simp [sortAsc, List.length_insertionSort]
  simp only [pyQuantile4, quartileByRank, hlen]
  rw [if_neg (by omega), if_neg (by omega)]
  have hd : ((i * (data.length + 1) % 4 : ℕ) : ℚ) = (i * (data.length + 1) % 4 : ℕ) := rfl
  field_simp
  ring

/-- Claim C1: the quartile-fence outlier policy: lists of fewer than 4
records pass through unchanged; otherwise, with Q1 and Q3 computed by the
exclusive method (linear interpolation at rank `p·(n+1)` over the sorted
sample, 1-indexed), the output is exactly the input records whose
`prix_m2` lies in `[max(Q1 - 1.5·IQR, 0), Q3 + 1.5·IQR]`, and the lower
fence is never negative. -/
theorem C1_quartile_fence (data : List ExtractedRecord) :
    (data.length < 4 → remove_outliers_iqr data = data) ∧
    (4 ≤ data.length →
      remove_outliers_iqr data =
        data.filter (fun r =>
          decide (specLowerFence (data.map ExtractedRecord.prix_m2) ≤ r.prix_m2 ∧
            r.prix_m2 ≤ specUpperFence (data.map ExtractedRecord.prix_m2))) ∧
      0 ≤ specLowerFence (data.map ExtractedRecord.prix_m2)) := by
  constructor
  · intro h
    unfold remove_outliers_iqr
    rw [if_pos h]
  · intro h
    have hlen : (data.map ExtractedRecord.prix_m2).length = data.length :=
      List.length_map _ _
    have e1 : pyQuantile4 (data.map ExtractedRecord.prix_m2) 1 =
        quartileByRank (data.map ExtractedRecord.prix_m2) 1 := by
      apply pyQuantile4_eq_rank <;> rw [hlen] <;> omega
    have e3 : pyQuantile4 (data.map ExtractedRecord.prix_m2) 3 =
        quartileByRank (data.map ExtractedRecord.prix_m2) 3 := by
      apply pyQuantile4_eq_rank <;> rw [hlen] <;> omega
    constructor
    · unfold remove_outliers_iqr
      rw [if_neg (by omega)]
      simp only [e1, e3, specLowerFence, specUpperFence]
    · exact le_max_right _ _
/-- A concrete extracted record with a given price per area, for witnesses. -/
def mkRec (p : ℚ) : ExtractedRecord :=
  { valeur_fonciere := p, surface_relle_bati := 1, nombre_pieces_principales := Option.none,
    prix_m2 := p, date_mutation := Option.some "2024-01-01", voie := "", commune := "",
    nature_mutation := "", rental := [] }

/-- Witness for C1 at a concrete five-record list. -/
theorem C1_quartile_fence_witness :
    remove_outliers_iqr [mkRec 1, mkRec 2, mkRec 3, mkRec 4, mkRec 100] =
      [mkRec 1, mkRec 2, mkRec 3, mkRec 4, mkRec 100] ∧
    0 ≤ specLowerFence ([mkRec 1, mkRec 2, mkRec 3, mkRec 4, mkRec 100].map
      ExtractedRecord.prix_m2) := by
  have h := (C1_quartile_fence [mkRec 1, mkRec 2, mkRec 3, mkRec 4, mkRec 100]).2
    (by norm_num)
  refine ⟨h.1.trans ?_, h.2⟩
  norm_num [mkRec, specLowerFence, specUpperFence, quartileByRank, sortAsc,
    List.insertionSort, List.orderedInsert, List.filter]
theorem sortAsc_sorted (l : List ℚ) : (sortAsc l).Sorted (· ≤ ·) :=
  List.sorted_insertionSort _ l

theorem sortAsc_perm (l : List ℚ) : List.Perm (sortAsc l) l := List.perm_insertionSort _ l

theorem sortAsc_length (l : List ℚ) : (sortAsc l).length = l.length :=
  (sortAsc_perm l).length_eq

theorem sorted_getD_mono {P : List ℚ} (hs : P.Sorted (· ≤ ·)) {i j : ℕ}
    (hij : i ≤ j) (hj : j < P.length) : P.getD i 0 ≤ P.getD j 0 := by
  have hi : i < P.length := lt_of_le_of_lt hij hj
  rw [List.getD_eq_getElem _ _ hi, List.getD_eq_getElem _ _ hj]
  rcases eq_or_lt_of_le hij with rfl | hlt
  · exact le_refl _
  · exact List.Sorted.rel_get_of_lt hs (by exact hlt)

theorem countP_lt_le {P : List ℚ} (hs : P.Sorted (· ≤ ·)) {k : ℕ} (hk : k < P.length) :
    P.countP (fun x => decide (x < P.getD k 0)) ≤ k := by
  set c := P.getD k 0 with hc
  have hsplit := List.take_append_drop k P
  have hcount : P.countP (fun x => decide (x < c)) =
      (P.take k).countP (fun x => decide (x < c)) +
      (P.drop k).countP (fun x => decide (x < c)) := by
    conv_lhs => rw [← hsplit]
    exact List.countP_append _ _ _
  have hdrop : (P.drop k).countP (fun x => decide (x < c)) = 0 := by
    rw [List.countP_eq_zero]
    intro a ha
    rw [List.mem_iff_getElem] at ha
    obtain ⟨j, hj, rfl⟩ := ha
    have hj2 : k + j < P.length := by
      have := List.length_drop k P
      omega
    rw [List.getElem_drop]
    simp only [decide_eq_true_eq, not_lt]
    have h2 : P.getD k 0 ≤ P.getD (k + j) 0 := sorted_getD_mono hs (Nat.le_add_right _ _) hj2
    rw [List.getD_eq_getElem _ _ hj2] at h2
    exact hc ▸ h2
  have htake : (P.take k).countP (fun x => decide (x < c)) ≤ k := by
    calc (P.take k).countP _ ≤ (P.take k).length := List.countP_le_length _
    _ ≤ k := by rw [List.length_take]; omega
  omega

theorem countP_gt_le {P : List ℚ} (hs : P.Sorted (· ≤ ·)) {k : ℕ} (hk : k < P.length) :
    P.countP (fun x => decide (P.getD k 0 < x)) ≤ P.length - (k + 1) := by
  set c := P.getD k 0 with hc
  have hsplit := List.take_append_drop (k + 1) P
  have hcount : P.countP (fun x => decide (c < x)) =
      (P.take (k + 1)).countP (fun x => decide (c < x)) +
      (P.drop (k + 1)).countP (fun x => decide (c < x)) := by
    conv_lhs => rw [← hsplit]
    exact List.countP_append _ _ _
  have htake : (P.take (k + 1)).countP (fun x => decide (c < x)) = 0 := by
    rw [List.countP_eq_zero]
    intro a ha
    rw [List.mem_iff_getElem] at ha
    obtain ⟨j, hj, rfl⟩ := ha
    have hj1 : j < k + 1 := by
      have := List.length_take (k + 1) P
      omega
    have hj2 : j < P.length := by
      have := List.length_take (k + 1) P
      omega
    rw [List.getElem_take]
    simp only [decide_eq_true_eq, not_lt]
    have h2 : P.getD j 0 ≤ P.getD k 0 := sorted_getD_mono hs (by omega) hk
    rw [List.getD_eq_getElem _ _ hj2] at h2
    exact hc ▸ h2
  have hdrop : (P.drop (k + 1)).countP (fun x => decide (c < x)) ≤ P.length - (k + 1) := by
    calc (P.drop (k + 1)).countP _ ≤ (P.drop (k + 1)).length := List.countP_le_length _
    _ = P.length - (k + 1) := List.length_drop _ _
  omega

/-- The lower trim bound as the specification words it:
`sorted[floor(0.15 * n)]` over the sorted `prix_m2` values. -/
def trimLowerBound (data : List ExtractedRecord) : ℚ :=
  (sortAsc (data.map ExtractedRecord.prix_m2)).getD (3 * data.length / 20) 0

/-- The upper trim bound as the specification words it:
`sorted[floor(0.85 * n)]` over the sorted `prix_m2` values. -/
def trimUpperBound (data : List ExtractedRecord) : ℚ :=
  (sortAsc (data.map ExtractedRecord.prix_m2)).getD (17 * data.length / 20) 0

/-- Claim C4 (amended): for lists of at least 4 records the trim-percentile
policy takes `lower = sorted[floor(0.15*n)]`, `upper = sorted[floor(0.85*n)]`
(indices always in range, so the clamp never fires), retains exactly the
records whose `prix_m2` lies in `[lower, upper]` inclusive, excludes AT MOST
`floor(0.15*n)` smallest and at most `n - floor(0.85*n)` largest values
(with ties at the boundary, fewer than `floor(0.15*n)` may be excluded),
and always retains boundary-valued records. -/
theorem immo_remove_eq_filter (data : List ExtractedRecord) (h : 4 ≤ data.length) :
    immo_remove_outliers_iqr data =
      data.filter (fun r => decide (trimLowerBound data ≤ r.prix_m2 ∧
        r.prix_m2 ≤ trimUpperBound data)) := by
  have hPlen : (sortAsc (data.map ExtractedRecord.prix_m2)).length = data.length := by
    rw [sortAsc_length, List.length_map]
  have hli : 3 * data.length / 20 < data.length := by omega
  have hui : 17 * data.length / 20 < data.length := by omega
  unfold immo_remove_outliers_iqr
  rw [if_neg (by omega)]
  simp only [hPlen]
  rw [if_pos hli, if_pos hui]
  rfl

theorem trimBounds_le (data : List ExtractedRecord) (h : 4 ≤ data.length) :
    trimLowerBound data ≤ trimUpperBound data := by
  have hs := sortAsc_sorted (data.map ExtractedRecord.prix_m2)
  have hPlen : (sortAsc (data.map ExtractedRecord.prix_m2)).length = data.length := by
    rw [sortAsc_length, List.length_map]
  unfold trimLowerBound trimUpperBound
  exact sorted_getD_mono hs (Nat.div_le_div_right (by omega)) (by omega)

theorem C4_trim_percentile (data : List ExtractedRecord) (h : 4 ≤ data.length) :
    immo_remove_outliers_iqr data =
      data.filter (fun r => decide (trimLowerBound data ≤ r.prix_m2 ∧
        r.prix_m2 ≤ trimUpperBound data)) ∧
    trimLowerBound data ≤ trimUpperBound data ∧
    (data.filter (fun r => decide (r.prix_m2 < trimLowerBound data))).length ≤
      3 * data.length / 20 ∧
    (data.filter (fun r => decide (trimUpperBound data < r.prix_m2))).length ≤
      data.length - 17 * data.length / 20 ∧
    (∀ r ∈ data, (r.prix_m2 = trimLowerBound data ∨ r.prix_m2 = trimUpperBound data) →
      r ∈ immo_remove_outliers_iqr data) := by
  have hPlen : (sortAsc (data.map ExtractedRecord.prix_m2)).length = data.length := by
    rw [sortAsc_length, List.length_map]
  have hs := sortAsc_sorted (data.map ExtractedRecord.prix_m2)
  have hli : 3 * data.length / 20 < data.length := by omega
  have hui : 17 * data.length / 20 < data.length := by omega
  have hliui : 3 * data.length / 20 ≤ 17 * data.length / 20 :=
    Nat.div_le_div_right (by omega)
  have heq := immo_remove_eq_filter data h
  have hbound := trimBounds_le data h
  have hlow : (data.filter (fun r => decide (r.prix_m2 < trimLowerBound data))).length ≤
      3 * data.length / 20 := by
    have h1 : (data.filter (fun r => decide (r.prix_m2 < trimLowerBound data))).length =
        (sortAsc (data.map ExtractedRecord.prix_m2)).countP
          (fun x => decide (x < trimLowerBound data)) := by
      rw [← List.countP_eq_length_filter,
        (sortAsc_perm (data.map ExtractedRecord.prix_m2)).countP_eq, List.countP_map]
      rfl
    rw [h1]
    simp only [trimLowerBound]
    exact countP_lt_le hs (k := 3 * data.length / 20) (by omega)
  have hhigh : (data.filter (fun r => decide (trimUpperBound data < r.prix_m2))).length ≤
      data.length - 17 * data.length / 20 := by
    have h1 : (data.filter (fun r => decide (trimUpperBound data < r.prix_m2))).length =
        (sortAsc (data.map ExtractedRecord.prix_m2)).countP
          (fun x => decide (trimUpperBound data < x)) := by
      rw [← List.countP_eq_length_filter,
        (sortAsc_perm (data.map ExtractedRecord.prix_m2)).countP_eq, List.countP_map]
      rfl
    rw [h1]
    simp only [trimUpperBound]
    have h2 := countP_gt_le hs (k := 17 * data.length / 20) (by omega)
    rw [hPlen] at h2
    have h3 := Nat.le_of_lt hui
    omega
  refine ⟨heq, hbound, hlow, hhigh, ?_⟩
  intro r hr hb
  rw [heq, List.mem_filter]
  refine ⟨hr, ?_⟩
  simp only [decide_eq_true_eq]
  rcases hb with hb | hb <;> rw [hb]
  · exact ⟨le_refl _, hbound⟩
  · exact ⟨hbound, le_refl _⟩

/-- Counterexample to claim C4 as stated: on seven records with identical
prices, the code excludes nothing, but the claim requires exactly
`floor(0.15 * 7) = 1` smallest sorted position to be excluded. -/
theorem C4_trim_percentile_counterexample :
    immo_remove_outliers_iqr [mkRec 1, mkRec 1, mkRec 1, mkRec 1, mkRec 1, mkRec 1, mkRec 1] =
      [mkRec 1, mkRec 1, mkRec 1, mkRec 1, mkRec 1, mkRec 1, mkRec 1] ∧
    3 * ([mkRec 1, mkRec 1, mkRec 1, mkRec 1, mkRec 1, mkRec 1, mkRec 1] :
      List ExtractedRecord).length / 20 = 1 := by
  constructor
  · norm_num [immo_remove_outliers_iqr, sortAsc, List.insertionSort, List.orderedInsert,
      mkRec, List.filter, List.getD]
  · norm_num [mkRec]

/-- Witness for C4 at a concrete seven-record list: records priced 1 and 7
are trimmed, the rest retained. -/
theorem C4_trim_percentile_witness :
    immo_remove_outliers_iqr [mkRec 1, mkRec 2, mkRec 3, mkRec 4, mkRec 5, mkRec 6, mkRec 7] =
      [mkRec 2, mkRec 3, mkRec 4, mkRec 5, mkRec 6] ∧
    trimLowerBound [mkRec 1, mkRec 2, mkRec 3, mkRec 4, mkRec 5, mkRec 6, mkRec 7] ≤
      trimUpperBound [mkRec 1, mkRec 2, mkRec 3, mkRec 4, mkRec 5, mkRec 6, mkRec 7] := by
  have h := C4_trim_percentile [mkRec 1, mkRec 2, mkRec 3, mkRec 4, mkRec 5, mkRec 6, mkRec 7]
    (by norm_num)
  refine ⟨h.1.trans ?_, h.2.1⟩
  norm_num [trimLowerBound, trimUpperBound, sortAsc, List.insertionSort, List.orderedInsert,
    mkRec, List.filter, List.getD]
theorem specRec_eq_immoMkRecord (t : Transaction) (ty : String) :
    specMkRecord [5, 6, 7] t ty = immoMkRecord t ty := by
  simp only [specMkRecord, immoMkRecord, rentalEntries, List.map]

theorem recKey_immoMkRecord (t : Transaction) (ty : String) :
    recKey (immoMkRecord t ty) = txKey t := rfl

theorem immoExtractAux_eq (txs : List Transaction) (seen : List (Option String × ℚ × ℚ × String))
    (ty : String) :
    immoExtractAux txs seen ty = (specExtractAll [5, 6, 7] txs ty).map (dedupFirstAux seen) := by
  induction txs generalizing seen with
  | nil => rfl
  | cons t rest ih =>
    simp only [immoExtractAux, specExtractAll]
    cases hc : essentialCheck t.valeur_fonciere t.surface_relle_bati with
    | error e => rfl
    | ok b =>
      cases b with
      | false =>
        simp only [Bind.bind, Except.bind, if_neg Bool.false_ne_true, ih seen]
      | true =>
        simp only [Bind.bind, Except.bind, if_pos rfl]
        by_cases hs : seen.contains (txKey t)
        · rw [if_pos hs, ih seen]
          cases hr : specExtractAll [5, 6, 7] rest ty with
          | error e => rfl
          | ok tail =>
            rw [specRec_eq_immoMkRecord]
            simp only [if_true, Except.map, dedupFirstAux, recKey_immoMkRecord]
            rw [if_pos hs]
        · rw [if_neg hs, ih (txKey t :: seen)]
          cases hr : specExtractAll [5, 6, 7] rest ty with
          | error e => rfl
          | ok tail =>
            rw [specRec_eq_immoMkRecord]
            simp only [if_true, Except.map, dedupFirstAux, recKey_immoMkRecord]
            rw [if_neg hs]
theorem dedupFirstAux_sublist (seen : List (Option String × ℚ × ℚ × String))
    (l : List ExtractedRecord) : (dedupFirstAux seen l).Sublist l := by
  induction l generalizing seen with
  | nil => exact List.Sublist.refl _
  | cons r rest ih =>
    simp only [dedupFirstAux]
    by_cases hs : seen.contains (recKey r)
    · rw [if_pos hs]
      exact (ih seen).cons _
    · rw [if_neg hs]
      exact (ih _).cons₂ _

theorem dedupFirstAux_not_seen (seen : List (Option String × ℚ × ℚ × String))
    (l : List ExtractedRecord) :
    ∀ r ∈ dedupFirstAux seen l, seen.contains (recKey r) = false := by
  induction l generalizing seen with
  | nil => intro r hr; exact absurd hr (List.not_mem_nil r)
  | cons a rest ih =>
    intro r hr
    simp only [dedupFirstAux] at hr
    by_cases hs : seen.contains (recKey a)
    · rw [if_pos hs] at hr
      exact ih seen r hr
    · rw [if_neg hs] at hr
      rcases List.mem_cons.mp hr with rfl | hr2
      · exact Bool.not_eq_true _ ▸ hs
      · have := ih (recKey a :: seen) r hr2
        simp only [List.contains_cons, Bool.or_eq_false_iff] at this
        exact this.2

theorem dedupFirstAux_nodup (seen : List (Option String × ℚ × ℚ × String))
    (l : List ExtractedRecord) : ((dedupFirstAux seen l).map recKey).Nodup := by
  induction l generalizing seen with
  | nil => exact List.nodup_nil
  | cons a rest ih =>
    simp only [dedupFirstAux]
    by_cases hs : seen.contains (recKey a)
    · rw [if_pos hs]; exact ih seen
    · rw [if_neg hs]
      simp only [List.map_cons, List.nodup_cons]
      refine ⟨?_, ih _⟩
      intro hmem
      obtain ⟨r, hr, hkey⟩ := List.mem_map.mp hmem
      have := dedupFirstAux_not_seen _ _ r hr
      simp only [List.contains_cons, Bool.or_eq_false_iff] at this
      have h1 := this.1
      rw [hkey] at h1
      simp at h1

theorem dedupFirstAux_first (seen : List (Option String × ℚ × ℚ × String))
    (l : List ExtractedRecord) :
    ∀ r ∈ dedupFirstAux seen l, ∃ pre suf, l = pre ++ r :: suf ∧
      ∀ p ∈ pre, recKey p ≠ recKey r ∨ seen.contains (recKey p) = true := by
  induction l generalizing seen with
  | nil => intro r hr; exact absurd hr (List.not_mem_nil r)
  | cons a rest ih =>
    intro r hr
    simp only [dedupFirstAux] at hr
    by_cases hs : seen.contains (recKey a)
    · rw [if_pos hs] at hr
      obtain ⟨pre, suf, heq, hpre⟩ := ih seen r hr
      refine ⟨a :: pre, suf, by rw [heq, List.cons_append], ?_⟩
      intro p hp
      rcases List.mem_cons.mp hp with rfl | hp2
      · exact Or.inr hs
      · exact hpre p hp2
    · rw [if_neg hs] at hr
      rcases List.mem_cons.mp hr with rfl | hr2
      · exact ⟨[], rest, rfl, fun p hp => absurd hp (List.not_mem_nil p)⟩
      · obtain ⟨pre, suf, heq, hpre⟩ := ih (recKey a :: seen) r hr2
        have hne : recKey a ≠ recKey r := by
          have := dedupFirstAux_not_seen _ _ r hr2
          simp only [List.contains_cons, Bool.or_eq_false_iff] at this
          intro hcontra
          have h1 := this.1
          rw [hcontra] at h1
          simp at h1
        refine ⟨a :: pre, suf, by rw [heq, List.cons_append], ?_⟩
        intro p hp
        rcases List.mem_cons.mp hp with rfl | hp2
        · exact Or.inl hne
        · rcases hpre p hp2 with h | h
          · exact Or.inl h
          · simp only [List.contains_cons, Bool.or_eq_true] at h
            rcases h with h | h
            · left
              intro hcontra
              rw [hcontra] at h
              simp only [beq_iff_eq] at h
              exact hne h.symm
            · exact Or.inr h

/-- Evaluation form of the essential-data guard on numeric fields. -/
theorem essentialCheck_num (v s : ℚ) :
    essentialCheck (PyVal.num v) (PyVal.num s) =
      Except.ok (decide (0 < s) && decide (0 < v)) := by
  simp only [essentialCheck, pyGtZero, Bind.bind, Except.bind, reduceCtorEq, if_false]
  by_cases hs : 0 < s
  · simp [hs]
  · simp [hs, pure, Except.pure]

/-- A concrete raw transaction with the given value, for witnesses and
counterexamples. -/
def mkTx (v : ℚ) : Transaction :=
  { valeur_fonciere := PyVal.num v, surface_relle_bati := PyVal.num 50,
    nombre_pieces_principales := Option.some 3, date_mutation := Option.some "2024-01-05",
    voie := "RUE A", commune := "PARIS", nature_mutation := "Vente" }

/-- The extracted record obtained from `mkTx 100000` in sale mode. -/
def rec0 : ExtractedRecord :=
  { valeur_fonciere := 100000, surface_relle_bati := 50,
    nombre_pieces_principales := Option.some 3, prix_m2 := 2000,
    date_mutation := Option.some "2024-01-05", voie := "RUE A", commune := "PARIS",
    nature_mutation := "Vente", rental := [] }

/-- The extracted record obtained from `mkTx 200000` in sale mode. -/
def rec2 : ExtractedRecord :=
  { valeur_fonciere := 200000, surface_relle_bati := 50,
    nombre_pieces_principales := Option.some 3, prix_m2 := 4000,
    date_mutation := Option.some "2024-01-05", voie := "RUE A", commune := "PARIS",
    nature_mutation := "Vente", rental := [] }
/-- Claim C2 (amended): the immosearch Extractor deduplicates: no two output
records share the identity key `(date, value, area, street)`; among the
valid input records sharing a key the first in input order is kept (its
output record is the first element of the undeduplicated extraction with
that key) and retained records keep their relative input order; the
dvf_server / dvf_analyzer copy of the Extractor performs no deduplication
(see the counterexample). -/
theorem C2_dedup_uniqueness (txs : List Transaction) (ty : String)
    (out : List ExtractedRecord)
    (h : immo_extract_relevant_data txs ty = Except.ok out) :
    ∃ all, specExtractAll [5, 6, 7] txs ty = Except.ok all ∧
      out = specDedupFirst all ∧
      (out.map recKey).Nodup ∧
      out.Sublist all ∧
      ∀ r ∈ out, ∃ pre suf, all = pre ++ r :: suf ∧ ∀ p ∈ pre, recKey p ≠ recKey r := by
  rw [immo_extract_relevant_data, immoExtractAux_eq] at h
  cases hall : specExtractAll [5, 6, 7] txs ty with
  | error e =>
    rw [hall] at h
    exact absurd h (by simp [Except.map])
  | ok all =>
    rw [hall, Except.map] at h
    injection h with h
    refine ⟨all, rfl, h.symm, ?_, ?_, ?_⟩
    · rw [← h]; exact dedupFirstAux_nodup [] all
    · rw [← h]; exact dedupFirstAux_sublist [] all
    · rw [← h]
      intro r hr
      obtain ⟨pre, suf, heq, hpre⟩ := dedupFirstAux_first [] all r hr
      refine ⟨pre, suf, heq, ?_⟩
      intro p hp
      rcases hpre p hp with hne | hcontra
      · exact hne
      · exact absurd hcontra (by simp)

/-- Counterexample to claim C2 as stated: the dvf_server / dvf_analyzer copy
of the Extractor emits two records with the same identity key when the same
transaction appears twice. -/
theorem C2_dedup_counterexample :
    extract_relevant_data [mkTx 100000, mkTx 100000] "sale" = Except.ok [rec0, rec0] ∧
    ¬ (([rec0, rec0].map recKey).Nodup) := by
  constructor
  · norm_num [extract_relevant_data, essentialCheck_num, getNum, mkTx, rec0,
      round2, roundHalfEvenZ, Bind.bind, Except.bind]
    exact fun h => absurd h (by decide)
  · simp [recKey, rec0]

/-- Witness for C2: on a concrete input with a duplicated transaction the
immosearch Extractor keeps one copy and the output keys are pairwise
distinct. -/
theorem C2_dedup_uniqueness_witness :
    immo_extract_relevant_data [mkTx 100000, mkTx 100000, mkTx 200000] "sale" =
      Except.ok [rec0, rec2] ∧
    (([rec0, rec2]).map recKey).Nodup := by
  have h : immo_extract_relevant_data [mkTx 100000, mkTx 100000, mkTx 200000] "sale" =
      Except.ok [rec0, rec2] := by
    norm_num [immo_extract_relevant_data, immoExtractAux, essentialCheck_num, getNum,
      mkTx, rec0, rec2, immoMkRecord, txKey, round2, roundHalfEvenZ, Bind.bind, Except.bind,
      List.contains_cons, Prod.mk.injEq]
    exact ⟨fun h => absurd h (by decide), fun h => absurd h (by decide)⟩
  obtain ⟨all, hall, hout, hnodup, hsub, hfirst⟩ :=
    C2_dedup_uniqueness [mkTx 100000, mkTx 100000, mkTx 200000] "sale" [rec0, rec2] h
  exact ⟨h, hnodup⟩
/-- A field is `None` or numeric (i.e. not a string, on which Python `>`
would raise). -/
def numericOrAbsent : PyVal → Bool
  | .str _ => false
  | _ => true

/-- The validity test of the Extractor on a pair of field values: both
numeric and positive. -/
def validPair : PyVal → PyVal → Bool
  | PyVal.num v, PyVal.num s => decide (0 < s) && decide (0 < v)
  | _, _ => false

/-- The validity test of the Extractor on one transaction. -/
def validTx (t : Transaction) : Bool :=
  validPair t.valeur_fonciere t.surface_relle_bati

theorem essentialCheck_ok_eq (v s : PyVal) (b : Bool)
    (h : essentialCheck v s = Except.ok b) : b = validPair v s := by
  cases v with
  | none =>
    simp only [essentialCheck, if_pos, Except.ok.injEq] at h
    cases s <;> simp [validPair, ← h]
  | num q =>
    cases s with
    | none =>
      simp only [essentialCheck, reduceCtorEq, if_false, if_pos, Except.ok.injEq] at h
      simp [validPair, ← h]
    | num q2 =>
      simp only [essentialCheck, reduceCtorEq, if_false, pyGtZero, Bind.bind,
        Except.bind] at h
      by_cases h0 : 0 < q2
      · simp only [decide_eq_true h0, if_pos, Except.ok.injEq] at h
        simp [validPair, h0, ← h]
      · simp only [decide_eq_false h0, Bool.false_eq_true, if_false, pure, Except.pure, Except.ok.injEq] at h
        simp [validPair, h0, ← h]
    | str a =>
      simp only [essentialCheck, reduceCtorEq, if_false, pyGtZero, Bind.bind,
        Except.bind] at h
  | str a =>
    cases s with
    | none =>
      simp only [essentialCheck, reduceCtorEq, if_false, if_pos, Except.ok.injEq] at h
      simp [validPair, ← h]
    | num q2 =>
      simp only [essentialCheck, reduceCtorEq, if_false, pyGtZero, Bind.bind,
        Except.bind] at h
      by_cases h0 : 0 < q2
      · rw [decide_eq_true h0, if_pos rfl] at h
        exact absurd h (by simp)
      · simp only [decide_eq_false h0, Bool.false_eq_true, if_false, pure, Except.pure, Except.ok.injEq] at h
        simp [validPair, ← h]
    | str a2 =>
      simp only [essentialCheck, reduceCtorEq, if_false, pyGtZero, Bind.bind,
        Except.bind] at h

theorem essentialCheck_total (v s : PyVal) (hv : numericOrAbsent v = true)
    (hs : numericOrAbsent s = true) :
    essentialCheck v s = Except.ok (validPair v s) := by
  cases v with
  | str a => simp [numericOrAbsent] at hv
  | none => cases s <;> rfl
  | num q =>
    cases s with
    | str a => simp [numericOrAbsent] at hs
    | none => rfl
    | num q2 =>
      simp only [essentialCheck, reduceCtorEq, if_false, pyGtZero, Bind.bind,
        Except.bind, validPair]
      by_cases h0 : 0 < q2
      · simp [h0]
      · simp [h0, pure, Except.pure]
theorem specExtractAll_post (rates : List ℚ) (txs : List Transaction) (ty : String)
    (out : List ExtractedRecord) (h : specExtractAll rates txs ty = Except.ok out) :
    ∀ r ∈ out, ∃ t ∈ txs, validTx t = true ∧ r = specMkRecord rates t ty := by
  induction txs generalizing out with
  | nil =>
    simp only [specExtractAll, Except.ok.injEq] at h
    intro r hr
    rw [← h] at hr
    exact absurd hr (List.not_mem_nil r)
  | cons t rest ih =>
    simp only [specExtractAll, Bind.bind, Except.bind] at h
    cases hc : essentialCheck t.valeur_fonciere t.surface_relle_bati with
    | error e => rw [hc] at h; exact absurd h (by simp)
    | ok b =>
      rw [hc] at h
      cases b with
      | false =>
        simp only [Bool.false_eq_true, if_false] at h
        intro r hr
        obtain ⟨t2, ht2, hv, heq⟩ := ih out h r hr
        exact ⟨t2, List.mem_cons_of_mem _ ht2, hv, heq⟩
      | true =>
        simp only [if_true] at h
        cases hrest : specExtractAll rates rest ty with
        | error e => rw [hrest] at h; exact absurd h (by simp)
        | ok tail =>
          rw [hrest] at h
          simp only [Except.ok.injEq] at h
          intro r hr
          rw [← h] at hr
          rcases List.mem_cons.mp hr with rfl | hr2
          · exact ⟨t, List.mem_cons_self _ _, (essentialCheck_ok_eq _ _ _ hc).symm, rfl⟩
          · obtain ⟨t2, ht2, hv, heq⟩ := ih tail hrest r hr2
            exact ⟨t2, List.mem_cons_of_mem _ ht2, hv, heq⟩

theorem specExtractAll_length (rates : List ℚ) (txs : List Transaction) (ty : String)
    (out : List ExtractedRecord) (h : specExtractAll rates txs ty = Except.ok out) :
    out.length = (txs.filter validTx).length := by
  induction txs generalizing out with
  | nil =>
    simp only [specExtractAll, Except.ok.injEq] at h
    rw [← h]
    rfl
  | cons t rest ih =>
    simp only [specExtractAll, Bind.bind, Except.bind] at h
    cases hc : essentialCheck t.valeur_fonciere t.surface_relle_bati with
    | error e => rw [hc] at h; exact absurd h (by simp)
    | ok b =>
      rw [hc] at h
      have hb := essentialCheck_ok_eq _ _ _ hc
      cases b with
      | false =>
        simp only [Bool.false_eq_true, if_false] at h
        rw [List.filter_cons, if_neg (by rw [validTx, ← hb]; simp)]
        exact ih out h
      | true =>
        simp only [if_true] at h
        cases hrest : specExtractAll rates rest ty with
        | error e => rw [hrest] at h; exact absurd h (by simp)
        | ok tail =>
          rw [hrest] at h
          simp only [Except.ok.injEq] at h
          rw [← h, List.filter_cons, if_pos (by rw [validTx, ← hb])]
          simp [ih tail hrest]

theorem specExtractAll_total (rates : List ℚ) (txs : List Transaction) (ty : String)
    (h : ∀ t ∈ txs, numericOrAbsent t.valeur_fonciere = true ∧
      numericOrAbsent t.surface_relle_bati = true) :
    ∃ out, specExtractAll rates txs ty = Except.ok out := by
  induction txs with
  | nil => exact ⟨[], rfl⟩
  | cons t rest ih =>
    obtain ⟨out, hout⟩ := ih (fun t2 ht2 => h t2 (List.mem_cons_of_mem _ ht2))
    obtain ⟨hv, hs⟩ := h t (List.mem_cons_self _ _)
    simp only [specExtractAll, Bind.bind, Except.bind, essentialCheck_total _ _ hv hs]
    cases hb : validPair t.valeur_fonciere t.surface_relle_bati with
    | false => exact ⟨out, by simpa using hout⟩
    | true => exact ⟨specMkRecord rates t ty :: out, by simp [hout]⟩

theorem extract_eq_spec (txs : List Transaction) (ty : String) :
    extract_relevant_data txs ty = specExtractAll [5, 6] txs ty := by
  induction txs with
  | nil => rfl
  | cons t rest ih =>
    simp only [extract_relevant_data, specExtractAll, Bind.bind, Except.bind]
    cases hc : essentialCheck t.valeur_fonciere t.surface_relle_bati with
    | error e => rfl
    | ok b =>
      rw [ih]
      cases hrest : specExtractAll [5, 6] rest ty with
      | error e => cases b <;> simp
      | ok tail =>
        cases b with
        | false => simp
        | true => simp [specMkRecord, rentalEntries]
theorem essentialCheck_noneV (s : PyVal) :
    essentialCheck PyVal.none s = Except.ok false := by
  unfold essentialCheck
  rw [if_pos rfl]

theorem validTx_fields (t : Transaction) (h : validTx t = true) :
    0 < getNum t.valeur_fonciere ∧ 0 < getNum t.surface_relle_bati := by
  unfold validTx validPair at h
  cases hv : t.valeur_fonciere with
  | num v =>
    cases hs : t.surface_relle_bati with
    | num s =>
      rw [hv, hs] at h
      simp only [Bool.and_eq_true, decide_eq_true_eq] at h
      exact ⟨by simp [getNum, h.2], by simp [getNum, h.1]⟩
    | none => rw [hv, hs] at h; simp at h
    | str a => rw [hv, hs] at h; simp at h
  | none => rw [hv] at h; cases t.surface_relle_bati <;> simp at h
  | str a => rw [hv] at h; cases t.surface_relle_bati <;> simp at h

theorem specMkRecord_post (rates : List ℚ) (t : Transaction) (ty : String)
    (h : validTx t = true) :
    0 < (specMkRecord rates t ty).valeur_fonciere ∧
    0 < (specMkRecord rates t ty).surface_relle_bati ∧
    (specMkRecord rates t ty).prix_m2 =
      round2 ((specMkRecord rates t ty).valeur_fonciere /
        (specMkRecord rates t ty).surface_relle_bati) := by
  obtain ⟨h1, h2⟩ := validTx_fields t h
  exact ⟨h1, h2, rfl⟩

/-- Claim C3 (amended): the Extractor (both the immosearch copy and the
dvf_server / dvf_analyzer copy) skips any record whose value or area is
absent or not strictly positive, and every emitted record satisfies
`value > 0`, `area > 0` and `price_per_area = round(value/area, 2)`;
the dvf copy emits exactly one record per valid input.  However the code
raises a `TypeError` (caught only by the surrounding tool handler) instead
of skipping when a present value or area is a non-numeric string, so the
no-raise guarantee holds only for inputs whose fields are absent or
numeric (see the counterexample). -/
theorem C3_extractor_validity :
    (∀ txs ty,
      (∀ t ∈ txs, numericOrAbsent t.valeur_fonciere = true ∧
        numericOrAbsent t.surface_relle_bati = true) →
      (∃ out, immo_extract_relevant_data txs ty = Except.ok out) ∧
      (∃ out, extract_relevant_data txs ty = Except.ok out)) ∧
    (∀ txs ty out, immo_extract_relevant_data txs ty = Except.ok out →
      ∀ r ∈ out, 0 < r.valeur_fonciere ∧ 0 < r.surface_relle_bati ∧
        r.prix_m2 = round2 (r.valeur_fonciere / r.surface_relle_bati)) ∧
    (∀ txs ty out, extract_relevant_data txs ty = Except.ok out →
      (∀ r ∈ out, 0 < r.valeur_fonciere ∧ 0 < r.surface_relle_bati ∧
        r.prix_m2 = round2 (r.valeur_fonciere / r.surface_relle_bati)) ∧
      out.length = (txs.filter validTx).length) := by
  refine ⟨?_, ?_, ?_⟩
  · intro txs ty h
    obtain ⟨all, hall⟩ := specExtractAll_total [5, 6, 7] txs ty h
    obtain ⟨all2, hall2⟩ := specExtractAll_total [5, 6] txs ty h
    refine ⟨⟨dedupFirstAux [] all, ?_⟩, ⟨all2, ?_⟩⟩
    · rw [immo_extract_relevant_data, immoExtractAux_eq, hall, Except.map]
    · rw [extract_eq_spec, hall2]
  · intro txs ty out h r hr
    rw [immo_extract_relevant_data, immoExtractAux_eq] at h
    cases hall : specExtractAll [5, 6, 7] txs ty with
    | error e => rw [hall] at h; exact absurd h (by simp [Except.map])
    | ok all =>
      rw [hall, Except.map] at h
      injection h with h
      rw [← h] at hr
      have hmem : r ∈ all := (dedupFirstAux_sublist [] all).subset hr
      obtain ⟨t, _, hv, rfl⟩ := specExtractAll_post _ _ _ _ hall r hmem
      exact specMkRecord_post _ _ _ hv
  · intro txs ty out h
    rw [extract_eq_spec] at h
    constructor
    · intro r hr
      obtain ⟨t, _, hv, rfl⟩ := specExtractAll_post _ _ _ _ h r hr
      exact specMkRecord_post _ _ _ hv
    · exact specExtractAll_length _ _ _ _ h

/-- A transaction whose value field holds a non-numeric string. -/
def txStr : Transaction :=
  { valeur_fonciere := PyVal.str "abc", surface_relle_bati := PyVal.num 50,
    nombre_pieces_principales := Option.none, date_mutation := Option.some "2024-01-05",
    voie := "", commune := "", nature_mutation := "" }

/-- Counterexample to claim C3 as stated: on a record whose value is a
non-numeric string, both extractors raise a `TypeError` instead of
skipping the record. -/
theorem C3_extractor_validity_counterexample :
    immo_extract_relevant_data [txStr] "sale" = Except.error "TypeError" ∧
    extract_relevant_data [txStr] "sale" = Except.error "TypeError" := by
  constructor <;>
    simp [immo_extract_relevant_data, immoExtractAux, extract_relevant_data,
      essentialCheck, pyGtZero, txStr, Bind.bind, Except.bind]

/-- A transaction whose value field is absent. -/
def txAbsent : Transaction :=
  { valeur_fonciere := PyVal.none, surface_relle_bati := PyVal.num 50,
    nombre_pieces_principales := Option.none, date_mutation := Option.some "2024-01-05",
    voie := "", commune := "", nature_mutation := "" }

/-- Witness for C3: on a list with one valid and one value-less transaction
the extraction succeeds, skips the incomplete record, and the emitted
record satisfies the postcondition. -/
theorem C3_extractor_validity_witness :
    extract_relevant_data [mkTx 100000, txAbsent] "sale" = Except.ok [rec0] ∧
    (0 < rec0.valeur_fonciere ∧ 0 < rec0.surface_relle_bati ∧
      rec0.prix_m2 = round2 (rec0.valeur_fonciere / rec0.surface_relle_bati)) ∧
    ([rec0].length = ([mkTx 100000, txAbsent].filter validTx).length) ∧
    (∃ out, immo_extract_relevant_data [mkTx 100000] "sale" = Except.ok out) := by
  have h : extract_relevant_data [mkTx 100000, txAbsent] "sale" = Except.ok [rec0] := by
    norm_num [extract_relevant_data, essentialCheck_num, essentialCheck_noneV, getNum,
      mkTx, txAbsent, rec0, round2, roundHalfEvenZ, Bind.bind, Except.bind]
    exact fun hh => absurd hh (by decide)
  have hp := C3_extractor_validity.2.2 [mkTx 100000, txAbsent] "sale" [rec0] h
  have htot := (C3_extractor_validity.1 [mkTx 100000] "sale"
    (by intro t ht; rcases List.mem_singleton.mp ht with rfl; exact ⟨rfl, rfl⟩)).1
  exact ⟨h, hp.1 rec0 (by simp), hp.2, htot⟩
/-- Claim C8: in rental mode every emitted record carries, for each
configured yield rate r, `monthly_rent = round(value*r/1200, 2)` and
`rent_per_area = round(monthly_rent/area, 2)` as a keyed entry per rate;
the rate set is a parameter of the spec-level extractor, and the two source
extractors realise it at the rate sets {5, 6, 7} (immosearch, with
deduplication) and {5, 6} (dvf) — not exactly two rates. -/
theorem C8_rental_rates :
    (∀ (rates : List ℚ) txs out, specExtractAll rates txs "rental" = Except.ok out →
      ∀ r ∈ out, r.rental = rentalEntries rates r.valeur_fonciere r.surface_relle_bati) ∧
    (∀ txs ty, immo_extract_relevant_data txs ty =
      Except.map specDedupFirst (specExtractAll [5, 6, 7] txs ty)) ∧
    (∀ txs ty, extract_relevant_data txs ty = specExtractAll [5, 6] txs ty) := by
  refine ⟨?_, ?_, ?_⟩
  · intro rates txs out h r hr
    obtain ⟨t, _, _, rfl⟩ := specExtractAll_post _ _ _ _ h r hr
    simp [specMkRecord]
  · intro txs ty
    rw [immo_extract_relevant_data, immoExtractAux_eq]
    rfl
  · intro txs ty
    exact extract_eq_spec txs ty

/-- The extracted record obtained from `mkTx 120000` in rental mode. -/
def recR : ExtractedRecord :=
  { valeur_fonciere := 120000, surface_relle_bati := 50,
    nombre_pieces_principales := Option.some 3, prix_m2 := 2400,
    date_mutation := Option.some "2024-01-05", voie := "RUE A", commune := "PARIS",
    nature_mutation := "Vente", rental := [(5, 500, 10), (6, 600, 12)] }

/-- Witness for C8: concrete rental extraction at yield rates 5 and 6. -/
theorem C8_rental_rates_witness :
    extract_relevant_data [mkTx 120000] "rental" = Except.ok [recR] ∧
    recR.rental = rentalEntries [5, 6] recR.valeur_fonciere recR.surface_relle_bati := by
  have h : extract_relevant_data [mkTx 120000] "rental" = Except.ok [recR] := by
    norm_num [extract_relevant_data, essentialCheck_num, getNum, mkTx, recR,
      round2, roundHalfEvenZ, Bind.bind, Except.bind]
  have hspec : specExtractAll [5, 6] [mkTx 120000] "rental" = Except.ok [recR] := by
    rw [← C8_rental_rates.2.2 [mkTx 120000] "rental"]
    exact h
  exact ⟨h, C8_rental_rates.1 [5, 6] [mkTx 120000] [recR] hspec recR (by simp)⟩
theorem foldl_min_mem : ∀ (t : List ℚ) (a : ℚ), t.foldl min a ∈ a :: t := by
  intro t
  induction t with
  | nil => intro a; simp
  | cons b t ih =>
    intro a
    simp only [List.foldl_cons]
    rcases min_choice a b with h | h
    · rcases List.mem_cons.mp (ih (min a b)) with h2 | h2
      · exact List.mem_cons.mpr (Or.inl (h2.trans h))
      · exact List.mem_cons.mpr (Or.inr (List.mem_cons_of_mem _ h2))
    · rcases List.mem_cons.mp (ih (min a b)) with h2 | h2
      · exact List.mem_cons.mpr (Or.inr (List.mem_cons.mpr (Or.inl (h2.trans h))))
      · exact List.mem_cons.mpr (Or.inr (List.mem_cons_of_mem _ h2))

theorem foldl_min_le : ∀ (t : List ℚ) (a : ℚ),
    t.foldl min a ≤ a ∧ ∀ x ∈ t, t.foldl min a ≤ x := by
  intro t
  induction t with
  | nil => intro a; simp
  | cons b t ih =>
    intro a
    simp only [List.foldl_cons]
    obtain ⟨h1, h2⟩ := ih (min a b)
    refine ⟨le_trans h1 (min_le_left _ _), ?_⟩
    intro x hx
    rcases List.mem_cons.mp hx with rfl | hx2
    · exact le_trans h1 (min_le_right _ _)
    · exact h2 x hx2

theorem foldl_max_mem : ∀ (t : List ℚ) (a : ℚ), t.foldl max a ∈ a :: t := by
  intro t
  induction t with
  | nil => intro a; simp
  | cons b t ih =>
    intro a
    simp only [List.foldl_cons]
    rcases max_choice a b with h | h
    · rcases List.mem_cons.mp (ih (max a b)) with h2 | h2
      · exact List.mem_cons.mpr (Or.inl (h2.trans h))
      · exact List.mem_cons.mpr (Or.inr (List.mem_cons_of_mem _ h2))
    · rcases List.mem_cons.mp (ih (max a b)) with h2 | h2
      · exact List.mem_cons.mpr (Or.inr (List.mem_cons.mpr (Or.inl (h2.trans h))))
      · exact List.mem_cons.mpr (Or.inr (List.mem_cons_of_mem _ h2))

theorem foldl_max_le : ∀ (t : List ℚ) (a : ℚ),
    a ≤ t.foldl max a ∧ ∀ x ∈ t, x ≤ t.foldl max a := by
  intro t
  induction t with
  | nil => intro a; simp
  | cons b t ih =>
    intro a
    simp only [List.foldl_cons]
    obtain ⟨h1, h2⟩ := ih (max a b)
    refine ⟨le_trans (le_max_left _ _) h1, ?_⟩
    intro x hx
    rcases List.mem_cons.mp hx with rfl | hx2
    · exact le_trans (le_max_right _ _) h1
    · exact h2 x hx2

theorem pymin_mem (l : List ℚ) (h : l ≠ []) : pymin l ∈ l := by
  cases l with
  | nil => exact absurd rfl h
  | cons a t => exact foldl_min_mem t a

theorem pymin_le (l : List ℚ) : ∀ x ∈ l, pymin l ≤ x := by
  cases l with
  | nil => simp
  | cons a t =>
    intro x hx
    rcases List.mem_cons.mp hx with rfl | hx2
    · exact (foldl_min_le t x).1
    · exact (foldl_min_le t a).2 x hx2

theorem pymax_mem (l : List ℚ) (h : l ≠ []) : pymax l ∈ l := by
  cases l with
  | nil => exact absurd rfl h
  | cons a t => exact foldl_max_mem t a

theorem pymax_le (l : List ℚ) : ∀ x ∈ l, x ≤ pymax l := by
  cases l with
  | nil => simp
  | cons a t =>
    intro x hx
    rcases List.mem_cons.mp hx with rfl | hx2
    · exact (foldl_max_le t x).1
    · exact (foldl_max_le t a).2 x hx2

theorem sqrtRound2_val_10000 : sqrtRound2 10000 = 100 := by
  have hs : Nat.sqrt 100000000 = 10000 := by
    rw [show (100000000 : ℕ) = 10000 ^ 2 by norm_num, Nat.sqrt_eq']
  have hs2 : (10000 * Int.toNat 10000).sqrt = 10000 := by
    rw [show (10000 * Int.toNat 10000 : ℕ) = 100000000 by simp]
    exact hs
  simp only [sqrtRound2]
  norm_num [hs2]
/-- Claim C5: the statistics engine returns an empty result on empty input;
on nonempty input it returns the count, the mean and the median (average of
the two middle values of the sorted list for even counts) rounded to two
decimals, the exact unrounded min and max (which are retained values), and
the sample standard deviation (divisor n-1, two decimals) exactly when the
count exceeds one — a single data point omits it without error; on
[100, 200, 300] it yields count 3, mean 200, median 200, min 100, max 300
and stdev 100. -/
theorem C5_statistics_engine :
    aggregateQ [] = Option.none ∧
    (∀ l : List ℚ, l ≠ [] → ∃ s, aggregateQ l = Option.some s ∧
      s.nb_transactions = l.length ∧
      s.prix_m2_moyen = round2 (l.sum / l.length) ∧
      s.prix_m2_median = round2 (pymedian l) ∧
      s.prix_m2_min ∈ l ∧ (∀ x ∈ l, s.prix_m2_min ≤ x) ∧
      s.prix_m2_max ∈ l ∧ (∀ x ∈ l, x ≤ s.prix_m2_max) ∧
      (s.prix_m2_ecart_type =
        if 1 < l.length then Option.some (sqrtRound2 (sampleVariance l)) else Option.none)) ∧
    (∀ data, calculate_statistics data = aggregateQ (data.map ExtractedRecord.prix_m2)) ∧
    (aggregateQ [100, 200, 300] = Option.some
      { nb_transactions := 3, prix_m2_moyen := 200, prix_m2_median := 200,
        prix_m2_min := 100, prix_m2_max := 300, prix_m2_ecart_type := Option.some 100 }) ∧
    (aggregateQ [100] = Option.some
      { nb_transactions := 1, prix_m2_moyen := 100, prix_m2_median := 100,
        prix_m2_min := 100, prix_m2_max := 100, prix_m2_ecart_type := Option.none }) := by
  refine ⟨rfl, ?_, fun _ => rfl, ?_, ?_⟩
  · intro l hl
    have hagg : aggregateQ l = Option.some
        { nb_transactions := l.length, prix_m2_moyen := round2 (pymean l),
          prix_m2_median := round2 (pymedian l), prix_m2_min := pymin l,
          prix_m2_max := pymax l,
          prix_m2_ecart_type := if 1 < l.length then
            Option.some (sqrtRound2 (sampleVariance l)) else Option.none } := by
      simp only [aggregateQ, if_neg hl]
    exact ⟨_, hagg, rfl, rfl, rfl, pymin_mem l hl, pymin_le l, pymax_mem l hl,
      pymax_le l, rfl⟩
  · have hvar : sampleVariance [100, 200, 300] = 10000 := by
      norm_num [sampleVariance, pymean]
    simp only [aggregateQ, if_neg (show ¬([100, 200, 300] : List ℚ) = [] by simp)]
    norm_num [pymean, pymedian, pymin, pymax, sortAsc, List.insertionSort,
      List.orderedInsert, round2, roundHalfEvenZ, hvar, sqrtRound2_val_10000]
  · simp only [aggregateQ, if_neg (show ¬([100] : List ℚ) = [] by simp)]
    norm_num [pymean, pymedian, pymin, pymax, sortAsc, List.insertionSort,
      List.orderedInsert, round2, roundHalfEvenZ]

/-- Witness for C5 at the concrete input [100, 200, 300]. -/
theorem C5_statistics_engine_witness :
    ∃ s, aggregateQ [100, 200, 300] = Option.some s ∧ s.nb_transactions = 3 ∧
      s.prix_m2_min ∈ [(100 : ℚ), 200, 300] ∧
      s.prix_m2_ecart_type = Option.some (sqrtRound2 (sampleVariance [100, 200, 300])) := by
  obtain ⟨s, hs, hnb, _, _, hminmem, _, _, _, hecart⟩ :=
    C5_statistics_engine.2.1 [100, 200, 300] (by simp)
  refine ⟨s, hs, by simpa using hnb, hminmem, ?_⟩
  rw [hecart, if_pos (by norm_num)]
/-- The total number of values held across the groups. -/
def groupTotal (g : List (String × List ℚ)) : ℕ :=
  (g.map (fun kv => kv.2.length)).sum

theorem addToGroup_total (k : String) (v : ℚ) (g : List (String × List ℚ)) :
    groupTotal (addToGroup k v g) = groupTotal g + 1 := by
  induction g with
  | nil => rfl
  | cons kv rest ih =>
    obtain ⟨k2, vs⟩ := kv
    simp only [addToGroup]
    by_cases h : k2 = k
    · rw [if_pos h]
      simp only [groupTotal, List.map_cons, List.sum_cons, List.length_append,
        List.length_cons, List.length_nil]
      omega
    · rw [if_neg h]
      simp only [groupTotal, List.map_cons, List.sum_cons] at ih ⊢
      omega

theorem addToGroup_nonempty (k : String) (v : ℚ) (g : List (String × List ℚ))
    (h : ∀ kv ∈ g, kv.2 ≠ []) : ∀ kv ∈ addToGroup k v g, kv.2 ≠ [] := by
  induction g with
  | nil =>
    intro kv hkv
    rw [addToGroup, List.mem_singleton] at hkv
    subst hkv
    simp
  | cons kv0 rest ih =>
    obtain ⟨k2, vs⟩ := kv0
    intro kv hkv
    simp only [addToGroup] at hkv
    by_cases h2 : k2 = k
    · rw [if_pos h2] at hkv
      rcases List.mem_cons.mp hkv with rfl | hkv2
      · simp
      · exact h kv (List.mem_cons_of_mem _ hkv2)
    · rw [if_neg h2] at hkv
      rcases List.mem_cons.mp hkv with rfl | hkv2
      · exact h (k2, vs) (List.mem_cons_self _ _)
      · exact ih (fun kv3 hkv3 => h kv3 (List.mem_cons_of_mem _ hkv3)) kv hkv2

theorem groupStats_total (g : List (String × List ℚ)) (h : ∀ kv ∈ g, kv.2 ≠ []) :
    totalCount (groupStats g) = groupTotal g := by
  induction g with
  | nil => rfl
  | cons kv rest ih =>
    have hne : kv.2 ≠ [] := h kv (List.mem_cons_self _ _)
    have ih2 := ih (fun kv2 hkv2 => h kv2 (List.mem_cons_of_mem _ hkv2))
    simp only [groupStats, List.filterMap_cons, if_neg hne, totalCount, groupTotal,
      List.map_cons, List.sum_cons] at ih2 ⊢
    omega

theorem roomGroups_aux (data : List ExtractedRecord) :
    ∀ acc : List (String × List ℚ),
      groupTotal (data.foldl roomStep acc) = groupTotal acc + data.length ∧
      ((∀ kv ∈ acc, kv.2 ≠ []) → ∀ kv ∈ data.foldl roomStep acc, kv.2 ≠ []) := by
  induction data with
  | nil => intro acc; exact ⟨by simp, fun h => h⟩
  | cons r rest ih =>
    intro acc
    simp only [List.foldl_cons]
    obtain ⟨ih1, ih2⟩ := ih (roomStep acc r)
    constructor
    · rw [ih1, roomStep, addToGroup_total]
      simp only [List.length_cons]
      omega
    · intro h
      exact ih2 (by rw [roomStep]; exact addToGroup_nonempty _ _ _ h)

theorem yearGroups_aux (data : List ExtractedRecord) :
    ∀ acc : List (String × List ℚ),
      groupTotal (data.foldl yearStep acc) =
        groupTotal acc + (data.filter recDateTruthy).length ∧
      ((∀ kv ∈ acc, kv.2 ≠ []) → ∀ kv ∈ data.foldl yearStep acc, kv.2 ≠ []) := by
  induction data with
  | nil => intro acc; exact ⟨by simp, fun h => h⟩
  | cons r rest ih =>
    intro acc
    simp only [List.foldl_cons, List.filter_cons]
    cases hd : r.date_mutation with
    | none =>
      obtain ⟨ih1, ih2⟩ := ih acc
      rw [show yearStep acc r = acc by rw [yearStep, hd],
        show recDateTruthy r = false by simp [recDateTruthy, hd]]
      exact ⟨by simpa using ih1, ih2⟩
    | some d =>
      by_cases hde : d = ""
      · obtain ⟨ih1, ih2⟩ := ih acc
        rw [show yearStep acc r = acc by rw [yearStep, hd]; simp [hde],
          show recDateTruthy r = false by simp [recDateTruthy, hd, hde]]
        exact ⟨by simpa using ih1, ih2⟩
      · obtain ⟨ih1, ih2⟩ := ih (addToGroup (yearOf d) r.prix_m2 acc)
        rw [show yearStep acc r = addToGroup (yearOf d) r.prix_m2 acc by
            rw [yearStep, hd]; simp [hde],
          show recDateTruthy r = true by simp [recDateTruthy, hd, hde]]
        constructor
        · rw [ih1, addToGroup_total]
          simp only [if_true, List.length_cons]
          omega
        · intro h
          exact ih2 (addToGroup_nonempty _ _ _ h)

/-- Claim C7 (amended): room segmentation assigns every record to exactly
one group, so the per-group counts sum to the input size; year segmentation
assigns exactly the records with a nonempty date, so its per-group counts
sum to the number of such records (records without a date are silently
dropped, not grouped). -/
theorem C7_segmenter_partition (data : List ExtractedRecord) :
    totalCount (analyze_by_rooms data) = data.length ∧
    totalCount (analyze_by_year data) = (data.filter recDateTruthy).length := by
  constructor
  · rw [analyze_by_rooms, roomGroups,
      groupStats_total _ ((roomGroups_aux data []).2 (by simp))]
    simpa [groupTotal] using (roomGroups_aux data []).1
  · rw [analyze_by_year, yearGroups,
      groupStats_total _ ((yearGroups_aux data []).2 (by simp))]
    simpa [groupTotal] using (yearGroups_aux data []).1

/-- Counterexample to claim C7 as stated: a record without a date is
assigned to no group by year segmentation, so the group counts sum to 0,
not to the input size 1. -/
theorem C7_segmenter_partition_counterexample :
    totalCount (analyze_by_year
      [{ mkRec 1 with date_mutation := Option.none }]) = 0 ∧
    ([{ mkRec 1 with date_mutation := Option.none }] : List ExtractedRecord).length = 1 :=
  ⟨rfl, rfl⟩
theorem pySlice_sublist {α : Type} (l : List α) (m : ℤ) : (pySlice l m).Sublist l := by
  unfold pySlice
  split
  · exact List.take_sublist _ _
  · exact List.take_sublist _ _

theorem orderedInsert_filter_key (k : String) (t : Transaction) (l : List Transaction) :
    (l.orderedInsert dateDesc t).filter (fun x => dateKey x == k) =
      if dateKey t == k then t :: l.filter (fun x => dateKey x == k)
      else l.filter (fun x => dateKey x == k) := by
  induction l with
  | nil =>
    simp only [List.orderedInsert, List.filter_cons, List.filter_nil]
  | cons a rest ih =>
    simp only [List.orderedInsert]
    by_cases hins : dateDesc t a
    · rw [if_pos hins, List.filter_cons]
    · rw [if_neg hins]
      have hlt : dateKey t < dateKey a := not_le.mp (fun hc => hins hc)
      rw [List.filter_cons, List.filter_cons, ih]
      by_cases hpt : dateKey t == k
      · have hpa : ¬(dateKey a == k) = true := by
          rw [beq_iff_eq]
          intro hc
          rw [beq_iff_eq] at hpt
          rw [hc, ← hpt] at hlt
          exact lt_irrefl _ hlt
        rw [if_pos hpt, if_neg hpa, if_pos hpt, if_neg hpa]
      · rw [if_neg hpt, if_neg hpt]
theorem insertionSort_filter_key (k : String) (l : List Transaction) :
    (l.insertionSort dateDesc).filter (fun x => dateKey x == k) =
      l.filter (fun x => dateKey x == k) := by
  induction l with
  | nil => rfl
  | cons t rest ih =>
    simp only [List.insertionSort, orderedInsert_filter_key, ih, List.filter_cons]

/-- Claim C6 (amended): the Selector keeps exactly the records matching the
optional exact room filter (a missing room count never matches), discards
records with a falsy date, sorts the rest by date descending under lexical
string comparison with ties preserving input order (the per-key filtrations
of the pool are unchanged), and returns the Python slice `[:max_count]` of
that pool: a prefix of at most `max_count` records when `max_count ≥ 0`
(empty for `max_count = 0` or empty input), but for NEGATIVE `max_count`
Python slicing drops only the last `|max_count|` records, so the result is
neither empty nor length-bounded by `max_count`. -/
theorem C6_selector (data : List Transaction) (max_results : ℤ) (nb_pieces : Option ℤ) :
    filter_recent_transactions data max_results nb_pieces =
      pySlice (selectorPool data nb_pieces) max_results ∧
    (selectorPool data nb_pieces).Pairwise dateDesc ∧
    (filter_recent_transactions data max_results nb_pieces).Pairwise dateDesc ∧
    List.Perm (selectorPool data nb_pieces)
      ((roomFiltered data nb_pieces).filter dateTruthy) ∧
    (∀ k : String, (selectorPool data nb_pieces).filter (fun t => dateKey t == k) =
      ((roomFiltered data nb_pieces).filter dateTruthy).filter (fun t => dateKey t == k)) ∧
    (0 ≤ max_results →
      (filter_recent_transactions data max_results nb_pieces).length ≤ max_results.toNat) ∧
    (max_results = 0 ∨ data = [] → filter_recent_transactions data max_results nb_pieces = []) ∧
    (∀ t ∈ filter_recent_transactions data max_results nb_pieces,
      t ∈ data ∧ dateTruthy t = true ∧
      ∀ n, nb_pieces = Option.some n → t.nombre_pieces_principales = Option.some n) := by
  have heq : filter_recent_transactions data max_results nb_pieces =
      pySlice (selectorPool data nb_pieces) max_results := by
    unfold filter_recent_transactions
    split
    · rename_i hdata
      subst hdata
      have hpool : selectorPool [] nb_pieces = [] := by cases nb_pieces <;> rfl
      rw [hpool]
      unfold pySlice
      split <;> simp
    · rfl
  have hsorted : (selectorPool data nb_pieces).Pairwise dateDesc :=
    List.sorted_insertionSort dateDesc _
  have hperm : List.Perm (selectorPool data nb_pieces)
      ((roomFiltered data nb_pieces).filter dateTruthy) :=
    List.perm_insertionSort dateDesc _
  have hsubpool : (filter_recent_transactions data max_results nb_pieces).Sublist
      (selectorPool data nb_pieces) := by
    rw [heq]
    exact pySlice_sublist _ _
  refine ⟨heq, hsorted, hsorted.sublist hsubpool, hperm, ?_, ?_, ?_, ?_⟩
  · intro k
    exact insertionSort_filter_key k _
  · intro hm
    rw [heq, pySlice, if_pos hm]
    exact le_trans (List.length_take_le _ _) (le_refl _)
  · intro h
    rcases h with rfl | rfl
    · rw [heq]
      unfold pySlice
      norm_num
    · unfold filter_recent_transactions
      rw [if_pos rfl]
  · intro t ht
    have hpool : t ∈ selectorPool data nb_pieces := hsubpool.subset ht
    rw [selectorPool, List.mem_insertionSort, List.mem_filter] at hpool
    obtain ⟨hroom, hdate⟩ := hpool
    refine ⟨?_, hdate, ?_⟩
    · cases hnb : nb_pieces with
      | none => rw [hnb] at hroom; exact hroom
      | some n =>
        rw [hnb] at hroom
        exact (List.mem_filter.mp hroom).1
    · intro n hn
      rw [hn] at hroom
      have := (List.mem_filter.mp hroom).2
      simpa using this
/-- A date-only transaction for Selector witnesses. -/
def txD (d : String) : Transaction :=
  { valeur_fonciere := PyVal.none, surface_relle_bati := PyVal.none,
    nombre_pieces_principales := Option.none, date_mutation := Option.some d,
    voie := "", commune := "", nature_mutation := "" }

/-- Counterexample to claim C6 as stated: with `max_count = -1` and two
records, Python slicing returns all but the last element, so the output is
nonempty although the claim requires an empty sequence (and its length 1
is not at most -1). -/
theorem C6_selector_counterexample :
    filter_recent_transactions [txD "2024-01-01", txD "2024-01-02"] (-1) Option.none =
      [txD "2024-01-02"] ∧
    filter_recent_transactions [txD "2024-01-01", txD "2024-01-02"] (-1) Option.none ≠ [] ∧
    ¬((1 : ℤ) ≤ -1) := by
  refine ⟨?_, ?_, by decide⟩ <;>
    simp +decide [filter_recent_transactions, selectorPool, roomFiltered,
      List.insertionSort, List.orderedInsert, dateDesc, dateKey, dateTruthy, txD,
      pySlice, List.filter, List.take]

/-- Witness for C6 at a concrete two-record input with `max_count = 1`. -/
theorem C6_selector_witness :
    filter_recent_transactions [txD "2024-01-01", txD "2024-01-02"] 1 Option.none =
      [txD "2024-01-02"] ∧
    (filter_recent_transactions [txD "2024-01-01", txD "2024-01-02"] 1 Option.none).length ≤
      (1 : ℤ).toNat ∧
    (filter_recent_transactions [txD "2024-01-01", txD "2024-01-02"] 0 Option.none = []) ∧
    (txD "2024-01-02" ∈ [txD "2024-01-01", txD "2024-01-02"] ∧
      dateTruthy (txD "2024-01-02") = true) := by
  have h1 := (C6_selector [txD "2024-01-01", txD "2024-01-02"] 1 Option.none).2.2.2.2.2.1
    (by decide)
  have h2 := (C6_selector [txD "2024-01-01", txD "2024-01-02"] 0 Option.none).2.2.2.2.2.2.1
    (Or.inl rfl)
  have heq : filter_recent_transactions [txD "2024-01-01", txD "2024-01-02"] 1 Option.none =
      [txD "2024-01-02"] := by
    simp +decide [filter_recent_transactions, selectorPool, roomFiltered,
      List.insertionSort, List.orderedInsert, dateDesc, dateKey, dateTruthy, txD,
      pySlice, List.filter, List.take]
  have h3 := (C6_selector [txD "2024-01-01", txD "2024-01-02"] 1 Option.none).2.2.2.2.2.2.2
    (txD "2024-01-02") (by rw [heq]; exact List.mem_singleton.mpr rfl)
  exact ⟨heq, h1, h2, h3.1, h3.2.1⟩
theorem immo_remove_ne_nil (data : List ExtractedRecord) (h : data ≠ []) :
    immo_remove_outliers_iqr data ≠ [] := by
  by_cases h4 : data.length < 4
  · unfold immo_remove_outliers_iqr
    rw [if_pos h4]
    exact h
  · have h4b : 4 ≤ data.length := by omega
    rw [immo_remove_eq_filter data h4b]
    have hPlen : (sortAsc (data.map ExtractedRecord.prix_m2)).length = data.length := by
      rw [sortAsc_length, List.length_map]
    have hli : 3 * data.length / 20 < data.length := by omega
    have hmemP : trimLowerBound data ∈ sortAsc (data.map ExtractedRecord.prix_m2) := by
      unfold trimLowerBound
      rw [List.getD_eq_getElem _ _ (by omega)]
      exact List.getElem_mem _
    have hmemM : trimLowerBound data ∈ data.map ExtractedRecord.prix_m2 :=
      (sortAsc_perm _).subset hmemP
    obtain ⟨r, hr, hpr⟩ := List.mem_map.mp hmemM
    have hrf : r ∈ data.filter (fun r => decide (trimLowerBound data ≤ r.prix_m2 ∧
        r.prix_m2 ≤ trimUpperBound data)) := by
      rw [List.mem_filter]
      refine ⟨hr, ?_⟩
      simp only [decide_eq_true_eq]
      rw [hpr]
      exact ⟨le_refl _, hpr ▸ trimBounds_le data h4b⟩
    exact List.ne_nil_of_mem hrf
/-- Claim C9 (amended): after the fetch stage, an empty selection or an
empty extraction makes the analysis return a terminal error value (not a
thrown fault — the result is always a `success` or `error` value, any
`TypeError` being converted by the surrounding handler) with a distinct
reason string per stage; the status literal is `"error"`, not `"no-data"`.
The outlier-removal stage of this pipeline never empties a nonempty input
(its boundary records always survive), so its dedicated reason string,
although present in the code, is unreachable. -/
theorem C9_empty_stage_errors :
    (∀ resultats max_results nb_pieces ty,
      filter_recent_transactions resultats max_results nb_pieces = [] →
      analyze_dvf_core resultats max_results nb_pieces ty =
        AnalysisResult.error "No recent transactions found with specified criteria") ∧
    (∀ resultats max_results nb_pieces ty,
      filter_recent_transactions resultats max_results nb_pieces ≠ [] →
      immo_extract_relevant_data
        (filter_recent_transactions resultats max_results nb_pieces) ty = Except.ok [] →
      analyze_dvf_core resultats max_results nb_pieces ty =
        AnalysisResult.error "No transactions with complete data found") ∧
    (∀ extracted : List ExtractedRecord, extracted ≠ [] →
      immo_remove_outliers_iqr extracted ≠ []) ∧
    (∀ resultats max_results nb_pieces ty,
      statusOf (analyze_dvf_core resultats max_results nb_pieces ty) = "success" ∨
      statusOf (analyze_dvf_core resultats max_results nb_pieces ty) = "error") ∧
    (("No recent transactions found with specified criteria" : String) ≠
        "No transactions with complete data found" ∧
      ("No recent transactions found with specified criteria" : String) ≠
        "No transactions after outlier removal" ∧
      ("No transactions with complete data found" : String) ≠
        "No transactions after outlier removal") := by
  refine ⟨?_, ?_, immo_remove_ne_nil, ?_, by decide, by decide, by decide⟩
  · intro resultats max_results nb_pieces ty h
    unfold analyze_dvf_core
    rw [h]
    rfl
  · intro resultats max_results nb_pieces ty h1 h2
    unfold analyze_dvf_core
    rw [if_neg h1, h2]
    rfl
  · intro resultats max_results nb_pieces ty
    cases analyze_dvf_core resultats max_results nb_pieces ty with
    | success s st => exact Or.inl rfl
    | error e => exact Or.inr rfl

/-- Counterexample to claim C9 as stated: the terminal status literal is
`"error"`, not `"no-data"`, when the selection stage returns nothing. -/
theorem C9_empty_stage_errors_counterexample :
    analyze_dvf_core [] 100 Option.none "sale" =
      AnalysisResult.error "No recent transactions found with specified criteria" ∧
    statusOf (analyze_dvf_core [] 100 Option.none "sale") = "error" ∧
    statusOf (analyze_dvf_core [] 100 Option.none "sale") ≠ "no-data" ∧
    statusOf (analyze_dvf_core [] 100 Option.none "sale") ≠ "success" := by
  refine ⟨rfl, rfl, by decide, by decide⟩

/-- Witness for C9: the selection-empty and extraction-empty stages at
concrete inputs, and the never-empty outlier stage at a one-record list. -/
theorem C9_empty_stage_errors_witness :
    analyze_dvf_core [] 100 Option.none "sale" =
      AnalysisResult.error "No recent transactions found with specified criteria" ∧
    analyze_dvf_core [txAbsent] 100 Option.none "sale" =
      AnalysisResult.error "No transactions with complete data found" ∧
    immo_remove_outliers_iqr [mkRec 1] ≠ [] := by
  refine ⟨C9_empty_stage_errors.1 [] 100 Option.none "sale" rfl, ?_, ?_⟩
  · refine C9_empty_stage_errors.2.1 [txAbsent] 100 Option.none "sale" ?_ ?_
    · simp +decide [filter_recent_transactions, selectorPool, roomFiltered,
        List.insertionSort, List.orderedInsert, dateDesc, dateKey, dateTruthy, txAbsent,
        pySlice, List.filter, List.take]
    · simp +decide [filter_recent_transactions, selectorPool, roomFiltered,
        List.insertionSort, List.orderedInsert, dateDesc, dateKey, dateTruthy, txAbsent,
        pySlice, List.filter, List.take, immo_extract_relevant_data, immoExtractAux,
        essentialCheck, pyGtZero, Bind.bind, Except.bind]
  · exact C9_empty_stage_errors.2.2.1 [mkRec 1] (by simp)
